import Mathlib

set_option maxRecDepth 8000

/-!
Shallow embedding of the data-processing core of the repository
(src/data_processing/create_monthly.py), covering the three components the
spec describes: the resampler (resample_to_monthly), the aligner/merger
(merge_all_series) and the transformer (calculo_transformaciones).

Modelling conventions:
- Numeric cells are Option Rat: none is a pandas NaN (missing cell).
- Timestamps are integers counting minutes; the calendar is uniform with
  44640 minutes (31 days) per month.  Only the month-grouping structure,
  the month-end normalization and the ordering of timestamps matter to the
  code under verification, never the true lengths of calendar months, so a
  uniform calendar is a faithful quotient of the real one.
- A raw date as read from a source file carries a wall-clock value and a
  timezone offset in minutes (offset 0 means timezone-naive).  The call
  pd.to_datetime(col, utc=True).dt.tz_localize(None) at the top of
  resample_to_monthly is modelled by subtracting the offset and storing the
  result back with offset 0; because the assignment in the source writes
  into the caller frame, the effectful wrapper resampleEffect returns both
  the result and the post-call state of the input frame.
- DataFrames are modelled three ways, matching their use in the source:
  a TSFrame (raw dates, one value column) entering the resampler, an
  SFrame (naive dates, one value column) as stored in the series registry,
  and a column-oriented Panel (a date list plus named columns) for the
  merged table.for the quarterly and spreadsheet tables the source reads
  without resampling we also use Panel.
- np.log is modelled by an uninterpreted parameter log : Rat -> Option Rat
  (none standing for a NaN float result); every property proved below
  about the transformer concerns only which cells are missing, never the
  numeric value of a logarithm, and holds for every such function.
- Python exceptions are modelled with Except String; the message strings
  paraphrase the exception a CPython run raises at that point.
- Lists given to the resampler are assumed listed in chronological order,
  as every caller in the source guarantees (the source CSV files are date
  sorted); pandas ffill and resample are embedded under that assumption.
-/

/-- Decidable equality for Except values, used to evaluate the embedded
pipeline stages on concrete inputs. -/
instance exceptDecEq {e a : Type} [DecidableEq e] [DecidableEq a] : DecidableEq (Except e a) := fun x y =>
  match x, y with
  | Except.error u, Except.error v =>
    if h : u = v then Decidable.isTrue (by rw [h]) else Decidable.isFalse (fun c => h (Except.error.inj c))
  | Except.ok u, Except.ok v =>
    if h : u = v then Decidable.isTrue (by rw [h]) else Decidable.isFalse (fun c => h (Except.ok.inj c))
  | Except.error _, Except.ok _ => Decidable.isFalse (fun c => Except.noConfusion c)
  | Except.ok _, Except.error _ => Decidable.isFalse (fun c => Except.noConfusion c)

/-- A timestamp as stored in a raw source column: minutes on the wall
clock, plus a timezone offset in minutes (0 when the value is naive). -/
structure RawDate where
  wall : Int
  tz : Int
deriving DecidableEq

/-- Minutes in one (uniform) calendar month: 31 days of 1440 minutes. -/
def minutesPerMonth : Int := 44640

/-- Calendar month of a naive timestamp (floor division, as in a real
calendar where every instant belongs to exactly one month). -/
def tsMonth (t : Int) : Int := Int.fdiv t minutesPerMonth

/-- Midnight of the last calendar day of month m: the timestamp pandas
produces for that month from to_period(M).to_timestamp(M) and from
resample(ME) labels. -/
def monthEndTs (m : Int) : Int := minutesPerMonth * m + 43200

/-- Normalization of an arbitrary naive timestamp to the month-end
timestamp of its month: dt.to_period(M).dt.to_timestamp(M). -/
def normME (t : Int) : Int := monthEndTs (tsMonth t)

/-- A single-series table as it enters resample_to_monthly: a value column
name, and rows of raw date and value. -/
structure TSFrame where
  name : String
  rows : List (RawDate × Option Rat)
deriving DecidableEq

/-- Effect of line 52 of create_monthly.py on the date column: every entry
is parsed to a naive timestamp (converted to UTC, offset dropped). -/
def parsedRows (rows : List (RawDate × Option Rat)) : List (RawDate × Option Rat) :=
  rows.map (fun r => (⟨r.1.wall - r.1.tz, 0⟩, r.2))

/-- Pandas ffill along the row order: a missing value is replaced by the
most recent earlier value, when one exists. -/
def ffillFrom (acc : Option Rat) : List (RawDate × Option Rat) → List (RawDate × Option Rat)
  | [] => []
  | (d, v) :: t =>
    match v with
    | some x => (d, some x) :: ffillFrom (some x) t
    | none => (d, acc) :: ffillFrom acc t

/-- Forward fill of a whole column (pandas DataFrame.ffill). -/
def ffillRows (rows : List (RawDate × Option Rat)) : List (RawDate × Option Rat) :=
  ffillFrom none rows

/-- Minimum of a list of integers, none when empty. -/
def minZ : List Int → Option Int
  | [] => none
  | x :: t =>
    some (match minZ t with
      | none => x
      | some y => min x y)

/-- Maximum of a list of integers, none when empty. -/
def maxZ : List Int → Option Int
  | [] => none
  | x :: t =>
    some (match maxZ t with
      | none => x
      | some y => max x y)

/-- The integers from lo to hi inclusive (empty when hi < lo). -/
def intRange (lo hi : Int) : List Int :=
  (List.range (hi + 1 - lo).toNat).map (fun i => lo + Int.ofNat i)

/-- The span of calendar months covered by a set of rows: every month from
the earliest to the latest date, the bins pandas resample(ME) produces. -/
def monthSpan (rows : List (RawDate × Option Rat)) : List Int :=
  match minZ (rows.map (fun r => tsMonth r.1.wall)), maxZ (rows.map (fun r => tsMonth r.1.wall)) with
  | some lo, some hi => intRange lo hi
  | _, _ => []

/-- The values (in row order) whose date falls in month m. -/
def bucketVals (rows : List (RawDate × Option Rat)) (m : Int) : List (Option Rat) :=
  (rows.filter (fun r => tsMonth r.1.wall == m)).map (fun r => r.2)

/-- Pandas groupby last: the last non-missing value of the bucket, none
when the bucket is empty or all missing. -/
def aggLast (l : List (Option Rat)) : Option Rat :=
  l.foldl (fun a x => match x with | some v => some v | none => a) none

/-- Pandas groupby mean: arithmetic mean of the non-missing values, none
when there are none. -/
def aggMean (l : List (Option Rat)) : Option Rat :=
  match l.filterMap id with
  | [] => none
  | ps => some (ps.foldl (· + ·) 0 / (ps.length : Rat))

/-- One output row per month of the span, dated at month end, aggregated
by agg. -/
def aggRows (rows : List (RawDate × Option Rat)) (agg : List (Option Rat) → Option Rat) :
    List (RawDate × Option Rat) :=
  (monthSpan rows).map (fun m => (⟨monthEndTs m, 0⟩, agg (bucketVals rows m)))

/-- Message of the TypeError raised when a None registry entry is
subscripted. -/
def msgNoneSub : String := "TypeError: NoneType object is not subscriptable"

/-- Message of the UnboundLocalError raised by the sum branch of
resample_to_monthly, which reads df_monthly before any assignment to it. -/
def msgUnbound : String := "UnboundLocalError: local variable df_monthly referenced before assignment"

/-- Message of the ValueError raised for an unknown aggregation method. -/
def msgMethod : String := "ValueError: Metodo no reconocido. Usar: last, mean, sum"

/-- Message of the ValueError raised when the base series is absent. -/
def msgBase : String := "ValueError: S&P 500 es obligatorio como serie base"

/-- Message of the KeyError raised by df[ff_rate] when that column is
absent from the frame. -/
def msgKeyFF : String := "KeyError: ff_rate"

/-- Embedding of resample_to_monthly (create_monthly.py lines 29 to 72):
parse the date column to naive timestamps, forward fill, group into
calendar month buckets labelled at month end, aggregate each bucket by
method.  The sum branch of the source reads the not yet assigned local
df_monthly and raises UnboundLocalError; an unknown method raises
ValueError. -/
def resample_to_monthly (f : TSFrame) (method : String) : Except String TSFrame :=
  let rows := parsedRows f.rows
  let filled := ffillRows rows
  if method == "last" then
    Except.ok ⟨f.name, aggRows filled aggLast⟩
  else if method == "mean" then
    Except.ok ⟨f.name, aggRows filled aggMean⟩
  else if method == "sum" then
    Except.error msgUnbound
  else
    Except.error msgMethod

/-- Result of resample_to_monthly together with the state of the caller
frame after the call: line 52 of the source assigns the parsed dates back
into the input frame, so the input leaves the call with its date column
rewritten (and its value column untouched). -/
def resampleEffect (f : TSFrame) (method : String) : Except String TSFrame × TSFrame :=
  (resample_to_monthly f method, ⟨f.name, parsedRows f.rows⟩)

/-- Index and value of the first non-missing entry of a column. -/
def firstKnown : List (Option Rat) → Option (Nat × Rat)
  | [] => none
  | some v :: _ => some (0, v)
  | none :: t => (firstKnown t).map (fun p => (p.1 + 1, p.2))

/-- Index and value of the last non-missing entry strictly before index i. -/
def prevKnown (xs : List (Option Rat)) : Nat → Option (Nat × Rat)
  | 0 => none
  | i + 1 =>
    match xs[i]? with
    | some (some v) => some (i, v)
    | _ => prevKnown xs i

/-- Index and value of the first non-missing entry strictly after index i. -/
def nextKnown (xs : List (Option Rat)) (i : Nat) : Option (Nat × Rat) :=
  (firstKnown (xs.drop (i + 1))).map (fun p => (i + 1 + p.1, p.2))

/-- Value pandas linear interpolation gives position i of the column:
a present value stays; a missing value between two known neighbours is
interpolated linearly by position; a missing value after the last known
entry receives that last known value (the forward fill the default
limit_direction of Series.interpolate performs); a missing value before
the first known entry stays missing. -/
def interpAt (xs : List (Option Rat)) (i : Nat) : Option Rat :=
  match xs[i]? with
  | some (some v) => some v
  | some none =>
    match prevKnown xs i, nextKnown xs i with
    | some (j, vj), some (k, vk) =>
      some (vj + (vk - vj) * ((i - j : Nat) : Rat) / ((k - j : Nat) : Rat))
    | some (_, vj), none => some vj
    | none, _ => none
  | none => none

/-- Embedding of Series.interpolate(method=linear) with default options,
as applied to the quarterly column on line 318 of create_monthly.py. -/
def interpolate_linear (xs : List (Option Rat)) : List (Option Rat) :=
  (List.range xs.length).map (fun i => interpAt xs i)

/-- A single-series monthly table as stored in the registry the merge
stage consumes: the value column name (equal to the registry key) and rows
of naive month timestamp and value. -/
structure SFrame where
  name : String
  rows : List (Int × Option Rat)
deriving DecidableEq

/-- A column-oriented table: the date column plus named value columns.
Used for the merged wide panel and for the two tables (quarterly GDP and
the Shiller spreadsheet) the source reads without resampling. -/
structure Panel where
  dates : List Int
  cols : List (String × List (Option Rat))
deriving DecidableEq

/-- The first column with the given name in a column list. -/
def getColA : List (String × List (Option Rat)) → String → Option (List (Option Rat))
  | [], _ => none
  | c :: t, n => if c.1 == n then some c.2 else getColA t n

/-- The first column with the given name, as df[name] reads it. -/
def getCol (p : Panel) (n : String) : Option (List (Option Rat)) :=
  getColA p.cols n

/-- Replacement of every column of the given name in a column list. -/
def setColA (l : List (String × List (Option Rat))) (n : String) (xs : List (Option Rat)) :
    List (String × List (Option Rat)) :=
  l.map (fun c => if c.1 == n then (c.1, xs) else c)

/-- Column assignment df[name] = xs: replace the column when the name
exists, append a new column otherwise. -/
def setCol (p : Panel) (n : String) (xs : List (Option Rat)) : Panel :=
  if (getColA p.cols n).isSome then ⟨p.dates, setColA p.cols n xs⟩
  else ⟨p.dates, p.cols ++ [(n, xs)]⟩

/-- Duplication of one left-hand cell of a left join: a cell with no
match in the right table survives once, a cell with k matches is repeated
k times (pandas merge row multiplication). -/
def dupCell {a : Type} (ms : List (Option Rat)) (v : a) : List a :=
  match ms with
  | [] => [v]
  | _ :: _ => ms.map (fun _ => v)

/-- The value the left join contributes for one left row: the matched
values in right-table order, or a single missing cell when unmatched. -/
def joinCell (ms : List (Option Rat)) : List (Option Rat) :=
  match ms with
  | [] => [none]
  | _ :: _ => ms

/-- The right-table values matching date d. -/
def matchesAt (rows : List (Int × Option Rat)) (d : Int) : List (Option Rat) :=
  (rows.filter (fun r => r.1 == d)).map (fun r => r.2)

/-- pd.merge(p, f, on=date, how=left): every left row is kept (duplicated
once per match when the right table has several rows for its date), and
the right value column is appended, missing where no match exists. -/
def leftJoin (p : Panel) (f : SFrame) : Panel :=
  let ex := p.dates.map (fun d => matchesAt f.rows d)
  ⟨(p.dates.zip ex).flatMap (fun pr => dupCell pr.2 pr.1),
   p.cols.map (fun c => (c.1, (c.2.zip ex).flatMap (fun pr => dupCell pr.2 pr.1)))
     ++ [(f.name, ex.flatMap joinCell)]⟩

/-- The value of the first non-missing match of date d, none when there is
no match: the cell a unique-dated right table contributes at d. -/
def lookupR (rows : List (Int × Option Rat)) (d : Int) : Option Rat :=
  match rows.find? (fun r => r.1 == d) with
  | some r => r.2
  | none => none

/-- Row indices of the right panel matching date d, for the whole-table
left join of the spreadsheet table. -/
def rowsAt (q : Panel) (d : Int) : List Nat :=
  (List.range q.dates.length).filter (fun i => q.dates[i]? == some d)

/-- Like dupCell but driven by a list of matched row indices. -/
def dupCellN {a : Type} (js : List Nat) (v : a) : List a :=
  match js with
  | [] => [v]
  | _ :: _ => js.map (fun _ => v)

/-- pd.merge(p, q, on=date, how=left) for a multi-column right table:
every column of q is appended, missing on unmatched rows. -/
def leftJoinP (p q : Panel) : Panel :=
  let ex := p.dates.map (fun d => rowsAt q d)
  ⟨(p.dates.zip ex).flatMap (fun pr => dupCellN pr.2 pr.1),
   p.cols.map (fun c => (c.1, (c.2.zip ex).flatMap (fun pr => dupCellN pr.2 pr.1)))
     ++ q.cols.map (fun c =>
          (c.1, ex.flatMap (fun js =>
            match js with
            | [] => [none]
            | _ :: _ => js.map (fun j => (c.2[j]?.getD none)))))⟩

/-- Insertion of index i into an index list sorted by key, before the
first index whose key is strictly larger (stable for equal keys). -/
def insertIdx (keyOf : Nat → Int) (i : Nat) : List Nat → List Nat
  | [] => [i]
  | j :: t => if keyOf i < keyOf j then i :: j :: t else j :: insertIdx keyOf i t

/-- Stable insertion sort of the indices of a list by key. -/
def sortIdx (keyOf : Nat → Int) (l : List Nat) : List Nat :=
  l.foldl (fun acc i => insertIdx keyOf i acc) []

/-- df.sort_values(date).reset_index(drop=True): reorder rows into
ascending date order (the identity whenever dates are already sorted,
which is the case for every panel the pipeline builds). -/
def sortPanel (p : Panel) : Panel :=
  let keyOf := fun i => (p.dates[i]?.getD 0)
  let perm := sortIdx keyOf (List.range p.dates.length)
  ⟨perm.map (fun i => p.dates[i]?.getD 0),
   p.cols.map (fun c => (c.1, perm.map (fun i => c.2[i]?.getD none)))⟩

/-- The series registry load_all_data builds: one optional entry per key,
None (here none) recording a missing source file. -/
structure Registry where
  sp500 : Option SFrame
  vix : Option SFrame
  fed_balance : Option SFrame
  ff_rate : Option SFrame
  treasury_2y : Option SFrame
  treasury_10y : Option SFrame
  spread_bbb : Option SFrame
  gdp : Option Panel
  shiller : Option Panel
deriving DecidableEq

/-- The date-normalization loop of merge_all_series (lines 263 to 265):
its condition is inverted (if data[key] is None), so the loop body
subscripts None and raises TypeError exactly when one of the six optional
monthly series is absent, and does nothing when all are present. -/
def normCheck (d : Registry) : Except String Unit :=
  if d.vix.isNone then Except.error msgNoneSub
  else if d.fed_balance.isNone then Except.error msgNoneSub
  else if d.ff_rate.isNone then Except.error msgNoneSub
  else if d.treasury_2y.isNone then Except.error msgNoneSub
  else if d.treasury_10y.isNone then Except.error msgNoneSub
  else if d.spread_bbb.isNone then Except.error msgNoneSub
  else Except.ok ()

/-- Left join of an optional series, as the merge loop of lines 273 to
281 performs for each present entry (absent entries are skipped there). -/
def joinOpt (p : Panel) (o : Option SFrame) : Panel :=
  match o with
  | some f => leftJoin p f
  | none => p

/-- The column-name scan of lines 297 to 301: the first column whose
lowercased, stripped name is gdp or gdp_nominal. -/
def findGdpCol (names : List String) : Option String :=
  names.find? (fun c => c.toLower.trim == "gdp" || c.toLower.trim == "gdp_nominal")

/-- Renaming of one column of a panel (DataFrame.rename). -/
def renameCol (p : Panel) (old new : String) : Panel :=
  ⟨p.dates, p.cols.map (fun c => if c.1 == old then (new, c.2) else c)⟩

/-- The GDP block of merge_all_series (lines 284 to 324): normalize the
quarterly dates to month end, resolve the GDP column name through the
alias scan, and when a gdp_nominal column results, left-join it and
linearly interpolate it across the panel rows; otherwise leave the panel
unchanged (the source prints an error and continues). -/
def gdpStep (p : Panel) (g0 : Panel) : Panel :=
  let g1 : Panel := ⟨g0.dates.map normME, g0.cols⟩
  let g2 : Panel :=
    match findGdpCol (g1.cols.map (fun c => c.1)) with
    | some c => if c == "gdp_nominal" then g1 else renameCol g1 c "gdp_nominal"
    | none => g1
  match getCol g2 "gdp_nominal" with
  | some col =>
    let pj := leftJoin p ⟨"gdp_nominal", g2.dates.zip col⟩
    setCol pj "gdp_nominal" (interpolate_linear ((getCol pj "gdp_nominal").getD []))
  | none => p

/-- The Shiller block of merge_all_series (lines 327 to 355): normalize
the spreadsheet dates to month end, rename the price and dividend columns
when present, and left-join the whole table. -/
def shillerStep (p : Panel) (s0 : Panel) : Panel :=
  let s1 : Panel := ⟨s0.dates.map normME, s0.cols⟩
  let s2 : Panel := ⟨s1.dates,
    s1.cols.map (fun c =>
      if c.1 == "price" then ("shiller_price", c.2)
      else if c.1 == "dividend" then ("shiller_dividend", c.2)
      else c)⟩
  leftJoinP p s2

/-- Embedding of merge_all_series (create_monthly.py lines 232 to 372):
fail when the base series is absent; normalize the base dates to month
end; run the (inverted) normalization loop over the six optional monthly
series, which raises if any of them is absent; left-join the present
optional series in priority order; special-case the quarterly GDP table
and the Shiller table; sort by date. -/
def merge_all_series (d : Registry) : Except String Panel :=
  match d.sp500 with
  | none => Except.error msgBase
  | some sp =>
    let base : Panel := ⟨sp.rows.map (fun r => normME r.1), [(sp.name, sp.rows.map (fun r => r.2))]⟩
    match normCheck d with
    | Except.error e => Except.error e
    | Except.ok _ =>
      let p6 := joinOpt (joinOpt (joinOpt (joinOpt (joinOpt (joinOpt base
        d.vix) d.fed_balance) d.ff_rate) d.treasury_2y) d.treasury_10y) d.spread_bbb
      let p7 := match d.gdp with
        | some g => gdpStep p6 g
        | none => p6
      let p8 := match d.shiller with
        | some s => shillerStep p7 s
        | none => p7
      Except.ok (sortPanel p8)

/-- Result of merge_all_series together with the state of the registry
after the call: the source copies the base, GDP and Shiller tables before
writing to them, and the only in-place write to a registry entry (the
inverted normalization loop) raises before assigning, so the registry the
caller passed is never changed. -/
def mergeEffect (d : Registry) : Except String Panel × Registry :=
  (merge_all_series d, d)

/-- The logarithm of a column: np.log applied cell by cell, with missing
cells staying missing.  The numeric log itself is the uninterpreted
parameter log, whose none result stands for a NaN float. -/
def colLog (log : Rat → Option Rat) (xs : List (Option Rat)) : List (Option Rat) :=
  xs.map (fun o => o.bind log)

/-- Series.replace(0, np.nan): zero cells become missing. -/
def replaceZero (xs : List (Option Rat)) : List (Option Rat) :=
  xs.map (fun o => o.bind (fun v => if v = 0 then none else some v))

/-- Series.apply(lambda x: x if x > 0 else np.nan): non-positive cells
become missing (a NaN argument compares false and also maps to NaN). -/
def applyPos (xs : List (Option Rat)) : List (Option Rat) :=
  xs.map (fun o =>
    match o with
    | some v => if 0 < v then some v else none
    | none => none)

/-- Series.diff continued on the tail: each cell minus the previous cell,
missing when either is missing. -/
def diffFrom (prev : Option Rat) : List (Option Rat) → List (Option Rat)
  | [] => []
  | x :: t =>
    (match prev, x with
      | some a, some b => some (b - a)
      | _, _ => none) :: diffFrom x t

/-- Series.diff(): first difference of a column; the first cell is always
missing, and a missing operand yields a missing difference. -/
def diff : List (Option Rat) → List (Option Rat)
  | [] => []
  | x :: t => none :: diffFrom x t

/-- Cellwise subtraction of two columns, missing when either operand is
missing (the treasury slope column). -/
def zipSub (xs ys : List (Option Rat)) : List (Option Rat) :=
  List.zipWith (fun a b =>
    match a, b with
    | some x, some y => some (x - y)
    | _, _ => none) xs ys

/-- One conditional derivation of the transformer: when column src is
present, assign g of it to column dst, otherwise do nothing. -/
def condMap (src dst : String) (g : List (Option Rat) → List (Option Rat)) (df : Panel) : Panel :=
  match getCol df src with
  | some xs => setCol df dst (g xs)
  | none => df

/-- The earnings block of calculo_transformaciones (lines 405 to 410):
replace zero earnings by NaN, drop non-positive values, then log the
cleaned column.  Note the clean helper column is stored in the frame. -/
def stepEarnings (log : Rat → Option Rat) (df : Panel) : Panel :=
  match getCol df "earnings" with
  | some xs =>
    condMap "earnings_clean" "log_earnings" (colLog log)
      (condMap "earnings_clean" "earnings_clean" applyPos
        (setCol df "earnings_clean" (replaceZero xs)))
  | none => df

/-- The logarithm block of calculo_transformaciones (lines 396 to 414). -/
def stepLogs (log : Rat → Option Rat) (df : Panel) : Panel :=
  condMap "gdp_nominal" "log_gdp" (colLog log)
    (stepEarnings log
      (condMap "fed_balance" "log_balance" (colLog log)
        (condMap "sp500" "log_sp500" (colLog log) df)))

/-- The log-difference and simple-difference blocks of
calculo_transformaciones (lines 417 to 436), including the ret_sp50
column name exactly as the source spells it. -/
def stepDiffs (df : Panel) : Panel :=
  condMap "ff_rate" "delta_ff" diff
    (condMap "vix" "delta_vix" diff
      (condMap "log_balance" "growth_balance" diff
        (condMap "log_sp500" "ret_sp50" diff df)))

/-- The delta_spread block (lines 438 to 440): when a spread_bbb column
is present the source assigns the first difference of the ff_rate column
(not of spread_bbb), and therefore raises KeyError when ff_rate is
absent. -/
def stepSpread (df : Panel) : Except String Panel :=
  match getCol df "spread_bbb" with
  | some _ =>
    match getCol df "ff_rate" with
    | some xs => Except.ok (setCol df "delta_spread" (diff xs))
    | none => Except.error msgKeyFF
  | none => Except.ok df

/-- The curve-slope block (lines 445 to 449): slope_curve is the 10 year
minus 2 year level, delta_slope its first difference. -/
def stepSlope (df : Panel) : Panel :=
  match getCol df "treasury_10y", getCol df "treasury_2y" with
  | some a, some b =>
    condMap "slope_curve" "delta_slope" diff (setCol df "slope_curve" (zipSub a b))
  | _, _ => df

/-- Embedding of calculo_transformaciones (create_monthly.py lines 375 to
473): copy the frame, add logarithm columns, log and simple differences,
the (mis-sourced) delta_spread column, and the curve slope; the
missing-value summary it prints is diagnostic output and adds no column. -/
def calculo_transformaciones (log : Rat → Option Rat) (df : Panel) : Except String Panel :=
  (stepSpread (stepDiffs (stepLogs log df))).map stepSlope

/-- Result of calculo_transformaciones together with the state of the
caller frame after the call: the function copies its argument on line 393
and writes only to the copy, so the input is returned unchanged. -/
def calculoEffect (log : Rat → Option Rat) (df : Panel) : Except String Panel × Panel :=
  (calculo_transformaciones log df, df)

/-- A raw single-series table with one fully observed row per month for
consecutive months starting at m0, dated at month end, timezone naive:
the shape of an already resampled monthly series. -/
def consecRawRows (m0 : Int) : List Rat → List (RawDate × Option Rat)
  | [] => []
  | v :: t => (⟨monthEndTs m0, 0⟩, some v) :: consecRawRows (m0 + 1) t

/-- A registry-level series with one row per month for consecutive months
starting at m0, dated at month end, with arbitrary (possibly missing)
values: the row shape of a resampled base series. -/
def consecSRows (m0 : Int) : List (Option Rat) → List (Int × Option Rat)
  | [] => []
  | v :: t => (monthEndTs m0, v) :: consecSRows (m0 + 1) t

theorem getColA_append (l l2 : List (String × List (Option Rat))) (m : String) :
    getColA (l ++ l2) m =
      match getColA l m with
      | some v => some v
      | none => getColA l2 m := by
  induction l with
  | nil => rfl
  | cons c t ih =>
    by_cases hc : c.1 = m
    · simp [getColA, hc]
    · simp [getColA, hc, ih]

theorem getColA_setColA_self {l : List (String × List (Option Rat))} {n : String}
    {xs : List (Option Rat)} (h : (getColA l n).isSome = true) :
    getColA (setColA l n xs) n = some xs := by
  induction l with
  | nil => simp [getColA] at h
  | cons c t ih =>
    by_cases hc : c.1 = n
    · simp [setColA, getColA, hc]
    · simp only [getColA, beq_iff_eq, hc, if_false] at h
      simpa [setColA, getColA, hc] using ih h

theorem getColA_setColA_ne {l : List (String × List (Option Rat))} {n m : String}
    {xs : List (Option Rat)} (h : ¬ m = n) : getColA (setColA l n xs) m = getColA l m := by
  have hnm : ¬ n = m := fun e => h e.symm
  induction l with
  | nil => rfl
  | cons c t ih =>
    by_cases hc : c.1 = n
    · have hcm : ¬ c.1 = m := by rw [hc]; exact hnm
      simp only [setColA, getColA, List.map_cons, hc, beq_iff_eq, if_true, hcm, if_false, hnm]
      simpa [setColA] using ih
    · by_cases hcm : c.1 = m
      · simp [setColA, getColA, hc, hcm, h]
      · simp only [setColA, getColA, List.map_cons, hc, beq_iff_eq, if_false, hcm]
        simpa [setColA] using ih

theorem getCol_setCol_self (p : Panel) (n : String) (xs : List (Option Rat)) :
    getCol (setCol p n xs) n = some xs := by
  cases hg : getColA p.cols n with
  | some v =>
    have hs : (getColA p.cols n).isSome = true := by simp [hg]
    simp only [getCol, setCol, hs, if_true]
    exact getColA_setColA_self hs
  | none =>
    have hs : (getColA p.cols n).isSome = false := by simp [hg]
    simp only [getCol, setCol, hs, Bool.false_eq_true, if_false]
    rw [getColA_append, hg]
    simp [getColA]

theorem getCol_setCol_ne (p : Panel) {n m : String} (xs : List (Option Rat)) (h : ¬ m = n) :
    getCol (setCol p n xs) m = getCol p m := by
  cases hg : getColA p.cols n with
  | some v =>
    have hs : (getColA p.cols n).isSome = true := by simp [hg]
    simp only [getCol, setCol, hs, if_true]
    exact getColA_setColA_ne h
  | none =>
    have hs : (getColA p.cols n).isSome = false := by simp [hg]
    simp only [getCol, setCol, hs, Bool.false_eq_true, if_false]
    rw [getColA_append]
    cases hm : getColA p.cols m with
    | some v => rfl
    | none =>
      have hnm : ¬ n = m := fun e => h e.symm
      simp [getColA, hnm]

theorem dates_setCol (p : Panel) (n : String) (xs : List (Option Rat)) :
    (setCol p n xs).dates = p.dates := by
  unfold setCol
  by_cases h : (getColA p.cols n).isSome = true <;> simp [h]

theorem getCol_condMap_ne (src dst : String) (g : List (Option Rat) → List (Option Rat))
    (df : Panel) {m : String} (h : ¬ m = dst) :
    getCol (condMap src dst g df) m = getCol df m := by
  unfold condMap
  cases getCol df src with
  | none => rfl
  | some xs => exact getCol_setCol_ne df _ h

theorem getCol_condMap_self (src dst : String) (g : List (Option Rat) → List (Option Rat))
    (df : Panel) {xs : List (Option Rat)} (h : getCol df src = some xs) :
    getCol (condMap src dst g df) dst = some (g xs) := by
  unfold condMap
  rw [h]
  exact getCol_setCol_self df dst (g xs)

/-- Claim C5: merging a registry in which the base series sp500 is absent
fails fast with the base-series ValueError before producing any panel,
regardless of what the other entries hold. -/
theorem c5_base_series_mandatory (d : Registry) (h : d.sp500 = none) :
    merge_all_series d = Except.error msgBase := by
  unfold merge_all_series
  rw [h]

theorem c5_witness :
    (⟨none, none, none, none, none, none, none, none, none⟩ : Registry).sp500 = none ∧
    merge_all_series ⟨none, none, none, none, none, none, none, none, none⟩ = Except.error msgBase :=
  ⟨rfl, c5_base_series_mandatory ⟨none, none, none, none, none, none, none, none, none⟩ rfl⟩

/-- Claim C1: the claim says an absent optional monthly series only costs
the corresponding column; in the code the date-normalization loop of
merge_all_series tests if data[key] is None (inverted) and then subscripts
the entry, so a registry with the base present and vix absent raises
TypeError, while the same registry with vix present (even empty) merges
fine.  This contradicts the intended graceful degradation the surrounding
code (and the spec) describe, so the claim is recorded as a code bug. -/
theorem c1_absent_optional_raises :
    merge_all_series ⟨some ⟨"sp500", [(43200, some 1)]⟩, none, some ⟨"fed_balance", []⟩,
        some ⟨"ff_rate", []⟩, some ⟨"treasury_2y", []⟩, some ⟨"treasury_10y", []⟩,
        some ⟨"spread_bbb", []⟩, none, none⟩ = Except.error msgNoneSub ∧
    merge_all_series ⟨some ⟨"sp500", [(43200, some 1)]⟩, some ⟨"vix", []⟩, some ⟨"fed_balance", []⟩,
        some ⟨"ff_rate", []⟩, some ⟨"treasury_2y", []⟩, some ⟨"treasury_10y", []⟩,
        some ⟨"spread_bbb", []⟩, none, none⟩ =
      Except.ok ⟨[43200], [("sp500", [some 1]), ("vix", [none]), ("fed_balance", [none]),
        ("ff_rate", [none]), ("treasury_2y", [none]), ("treasury_10y", [none]),
        ("spread_bbb", [none])]⟩ := by
  constructor
  · rfl
  · simp [merge_all_series, normCheck, joinOpt, leftJoin, matchesAt, dupCell, joinCell,
      sortPanel, sortIdx, insertIdx, normME, tsMonth, monthEndTs, minutesPerMonth, Int.fdiv,
      List.range, List.range.loop]

/-- Claim C2: on the three values 1, 2, 3 inside one month, resampling
yields 2 under mean and 3 under last as claimed, but method sum does not
return 6: the sum branch of the source discards its aggregation and reads
the unassigned local df_monthly, raising UnboundLocalError, so the sum
part of the claim is a code bug. -/
theorem c2_single_month_aggregation :
    resample_to_monthly ⟨"flow", [(⟨100, 0⟩, some 1), (⟨200, 0⟩, some 2), (⟨300, 0⟩, some 3)]⟩ "mean"
      = Except.ok ⟨"flow", [(⟨43200, 0⟩, some 2)]⟩ ∧
    resample_to_monthly ⟨"flow", [(⟨100, 0⟩, some 1), (⟨200, 0⟩, some 2), (⟨300, 0⟩, some 3)]⟩ "last"
      = Except.ok ⟨"flow", [(⟨43200, 0⟩, some 3)]⟩ ∧
    resample_to_monthly ⟨"flow", [(⟨100, 0⟩, some 1), (⟨200, 0⟩, some 2), (⟨300, 0⟩, some 3)]⟩ "sum"
      = Except.error msgUnbound := by
  refine ⟨?_, ?_, ?_⟩
  · simp [resample_to_monthly, parsedRows, ffillRows, ffillFrom, aggRows, monthSpan, minZ, maxZ,
      intRange, bucketVals, aggMean, tsMonth, monthEndTs, minutesPerMonth, Int.fdiv,
      List.range, List.range.loop]
    norm_num
  · simp [resample_to_monthly, parsedRows, ffillRows, ffillFrom, aggRows, monthSpan, minZ, maxZ,
      intRange, bucketVals, aggLast, tsMonth, monthEndTs, minutesPerMonth, Int.fdiv,
      List.range, List.range.loop]
  · rfl

theorem parsedRows_snd (rows : List (RawDate × Option Rat)) :
    (parsedRows rows).map (fun r => r.2) = rows.map (fun r => r.2) := by
  induction rows with
  | nil => rfl
  | cons r t ih => simp [parsedRows, ih]

theorem parsedRows_id {rows : List (RawDate × Option Rat)} (h : ∀ r ∈ rows, r.1.tz = 0) :
    parsedRows rows = rows := by
  induction rows with
  | nil => rfl
  | cons r t ih =>
    have h0 : r.1.tz = 0 := h r (List.mem_cons_self r t)
    have ht : parsedRows t = t := ih (fun x hx => h x (List.mem_cons_of_mem r hx))
    obtain ⟨⟨w, z⟩, v⟩ := r
    simp only [RawDate.tz] at h0
    simp [parsedRows, h0, parsedRows] at ht ⊢
    exact ht

/-- Claim C9 (counterexample): resample_to_monthly does mutate its input
when the date column is not yet timezone-naive: the call rewrites the
date cells with the parsed timestamps, so the caller table afterwards
differs from what was passed in. -/
theorem c9_counterexample :
    (resampleEffect ⟨"x", [(⟨1000, 60⟩, some 1)]⟩ "last").2 ≠ ⟨"x", [(⟨1000, 60⟩, some 1)]⟩ := by
  decide

/-- Claim C9 (amended): resample_to_monthly rewrites the date column of
its input in place (parsing it to naive timestamps) but never touches the
value column or the name, and leaves the input entirely unchanged when
the dates are already naive; the merge and transform stages leave their
inputs unchanged (they copy before writing). -/
theorem c9_stage_effects :
    (∀ (f : TSFrame) (m : String),
        ((resampleEffect f m).2).name = f.name ∧
        ((resampleEffect f m).2).rows.map (fun r => r.2) = f.rows.map (fun r => r.2)) ∧
    (∀ (f : TSFrame) (m : String), (∀ r ∈ f.rows, r.1.tz = 0) → (resampleEffect f m).2 = f) ∧
    (∀ d : Registry, (mergeEffect d).2 = d) ∧
    (∀ (log : Rat → Option Rat) (df : Panel), (calculoEffect log df).2 = df) := by
  refine ⟨fun f m => ⟨rfl, parsedRows_snd f.rows⟩, fun f m h => ?_, fun d => rfl, fun log df => rfl⟩
  cases f with
  | mk n rows => simpa [resampleEffect] using parsedRows_id h

theorem c9_witness :
    (resampleEffect ⟨"x", [(⟨43200, 0⟩, some 1)]⟩ "last").2 = ⟨"x", [(⟨43200, 0⟩, some 1)]⟩ :=
  c9_stage_effects.2.1 ⟨"x", [(⟨43200, 0⟩, some 1)]⟩ "last" (by decide)

theorem getCol_stepEarnings_ne (log : Rat → Option Rat) (df : Panel) {m : String}
    (h3 : ¬ m = "earnings_clean") (h4 : ¬ m = "log_earnings") :
    getCol (stepEarnings log df) m = getCol df m := by
  unfold stepEarnings
  cases hx : getCol df "earnings" with
  | none => rfl
  | some xs =>
    rw [getCol_condMap_ne _ _ _ _ h4, getCol_condMap_ne _ _ _ _ h3, getCol_setCol_ne _ _ h3]

theorem getCol_stepLogs_ne (log : Rat → Option Rat) (p : Panel) {m : String}
    (h1 : ¬ m = "log_sp500") (h2 : ¬ m = "log_balance") (h3 : ¬ m = "earnings_clean")
    (h4 : ¬ m = "log_earnings") (h5 : ¬ m = "log_gdp") :
    getCol (stepLogs log p) m = getCol p m := by
  unfold stepLogs
  rw [getCol_condMap_ne _ _ _ _ h5, getCol_stepEarnings_ne log _ h3 h4,
    getCol_condMap_ne _ _ _ _ h2, getCol_condMap_ne _ _ _ _ h1]

theorem getCol_stepDiffs_ne (p : Panel) {m : String}
    (h1 : ¬ m = "ret_sp50") (h2 : ¬ m = "growth_balance") (h3 : ¬ m = "delta_vix")
    (h4 : ¬ m = "delta_ff") :
    getCol (stepDiffs p) m = getCol p m := by
  unfold stepDiffs
  rw [getCol_condMap_ne _ _ _ _ h4, getCol_condMap_ne _ _ _ _ h3,
    getCol_condMap_ne _ _ _ _ h2, getCol_condMap_ne _ _ _ _ h1]

theorem stepSpread_ok_getCol_ne {df q : Panel} {m : String} (h : ¬ m = "delta_spread")
    (hok : stepSpread df = Except.ok q) : getCol q m = getCol df m := by
  unfold stepSpread at hok
  cases hsp : getCol df "spread_bbb" with
  | none => rw [hsp] at hok; cases hok; rfl
  | some s =>
    rw [hsp] at hok
    cases hff : getCol df "ff_rate" with
    | none => rw [hff] at hok; cases hok
    | some xs => rw [hff] at hok; cases hok; exact getCol_setCol_ne df _ h

theorem getCol_stepSlope_ne (df : Panel) {m : String}
    (h1 : ¬ m = "slope_curve") (h2 : ¬ m = "delta_slope") :
    getCol (stepSlope df) m = getCol df m := by
  unfold stepSlope
  cases getCol df "treasury_10y" with
  | none => rfl
  | some a =>
    cases getCol df "treasury_2y" with
    | none => rfl
    | some b => rw [getCol_condMap_ne _ _ _ _ h2, getCol_setCol_ne _ _ h1]

theorem stepLogs_earnings_cols (log : Rat → Option Rat) (p : Panel) {xs : List (Option Rat)}
    (hx : getCol p "earnings" = some xs) :
    getCol (stepLogs log p) "earnings_clean" = some (applyPos (replaceZero xs)) ∧
    getCol (stepLogs log p) "log_earnings" = some (colLog log (applyPos (replaceZero xs))) := by
  have hx2 : getCol (condMap "fed_balance" "log_balance" (colLog log)
      (condMap "sp500" "log_sp500" (colLog log) p)) "earnings" = some xs := by
    rw [getCol_condMap_ne _ _ _ _ (by decide), getCol_condMap_ne _ _ _ _ (by decide), hx]
  unfold stepLogs stepEarnings
  rw [hx2]
  have hset : getCol (setCol (condMap "fed_balance" "log_balance" (colLog log)
      (condMap "sp500" "log_sp500" (colLog log) p)) "earnings_clean" (replaceZero xs))
      "earnings_clean" = some (replaceZero xs) := getCol_setCol_self _ _ _
  have hcl : getCol (condMap "earnings_clean" "earnings_clean" applyPos
      (setCol (condMap "fed_balance" "log_balance" (colLog log)
        (condMap "sp500" "log_sp500" (colLog log) p)) "earnings_clean" (replaceZero xs)))
      "earnings_clean" = some (applyPos (replaceZero xs)) :=
    getCol_condMap_self _ _ _ _ hset
  constructor
  · rw [getCol_condMap_ne _ _ _ _ (by decide), getCol_condMap_ne _ _ _ _ (by decide)]
    exact hcl
  · rw [getCol_condMap_ne _ _ _ _ (by decide)]
    exact getCol_condMap_self _ _ _ _ hcl

theorem diffFrom_get_none {t : List (Option Rat)} {i : Nat} (prev : Option Rat)
    (h : t[i]? = some none) : (diffFrom prev t)[i]? = some none := by
  induction t generalizing i prev with
  | nil => simp at h
  | cons y s ih =>
    cases i with
    | zero =>
      simp only [List.getElem?_cons_zero, Option.some.injEq] at h
      subst h
      cases prev <;> simp [diffFrom]
    | succ j =>
      simp only [List.getElem?_cons_succ] at h
      simpa [diffFrom] using ih y h

theorem diffFrom_get_none_next {t : List (Option Rat)} {i : Nat} (prev : Option Rat)
    (h : t[i]? = some none) (hl : i + 1 < t.length) :
    (diffFrom prev t)[i + 1]? = some none := by
  induction t generalizing i prev with
  | nil => simp at h
  | cons y s ih =>
    cases i with
    | zero =>
      simp only [List.getElem?_cons_zero, Option.some.injEq] at h
      subst h
      simp only [List.length_cons] at hl
      cases s with
      | nil => simp at hl
      | cons z s2 => simp [diffFrom]
    | succ j =>
      simp only [List.getElem?_cons_succ] at h
      simp only [List.length_cons] at hl
      simpa [diffFrom] using ih y h (by omega)

theorem diff_get_none_self {l : List (Option Rat)} {i : Nat} (h : l[i]? = some none) :
    (diff l)[i]? = some none := by
  cases l with
  | nil => simp at h
  | cons x t =>
    cases i with
    | zero => simp [diff]
    | succ j =>
      simp only [List.getElem?_cons_succ] at h
      simpa [diff] using diffFrom_get_none x h

theorem diff_get_none_next {l : List (Option Rat)} {i : Nat} (h : l[i]? = some none)
    (hl : i + 1 < l.length) : (diff l)[i + 1]? = some none := by
  cases l with
  | nil => simp at h
  | cons x t =>
    cases i with
    | zero =>
      simp only [List.getElem?_cons_zero, Option.some.injEq] at h
      subst h
      simp only [List.length_cons] at hl
      cases t with
      | nil => simp at hl
      | cons z s2 => simp [diff, diffFrom]
    | succ j =>
      simp only [List.getElem?_cons_succ, List.length_cons] at h hl
      simpa [diff] using diffFrom_get_none_next x h (by omega)

theorem stepSpread_ok (df : Panel)
    (h : (getCol df "spread_bbb").isSome = true → (getCol df "ff_rate").isSome = true) :
    ∃ q9, stepSpread df = Except.ok q9 := by
  unfold stepSpread
  cases hsp : getCol df "spread_bbb" with
  | none => exact ⟨df, rfl⟩
  | some s =>
    have hf : (getCol df "ff_rate").isSome = true := h (by simp [hsp])
    cases hff : getCol df "ff_rate" with
    | none => rw [hff] at hf; simp at hf
    | some xs => exact ⟨_, rfl⟩

/-- Claim C6 (counterexample): a panel whose earnings column holds the
non-positive value -1 can still make the transform raise, because the
delta_spread block reads the ff_rate column whenever spread_bbb is
present: with spread_bbb present and ff_rate absent the transform raises
KeyError, so (as literally quantified over all panels) the transform can
raise on a panel with non-positive earnings. -/
theorem c6_counterexample :
    calculo_transformaciones (fun _ => none)
        ⟨[43200], [("earnings", [some (-1)]), ("spread_bbb", [some 5])]⟩
      = Except.error msgKeyFF := by
  simp [calculo_transformaciones, stepLogs, stepEarnings, stepDiffs, stepSpread, stepSlope,
    condMap, getCol, getColA, setCol, setColA, colLog, replaceZero, applyPos, Except.map]

/-- Claim C6 (amended): provided the panel does not carry a spread_bbb
column without an ff_rate column (the one unrelated crash, caused by the
delta_spread copy-paste bug), the transform of a panel with an earnings
column always succeeds; every row whose earnings value is zero, negative
or missing has a missing log_earnings value, and a first difference
computed from the log column is missing at and directly after every
missing cell instead of raising. -/
theorem c6_log_of_nonpositive_safe (log : Rat → Option Rat) (p : Panel) (xs : List (Option Rat))
    (hx : getCol p "earnings" = some xs)
    (hff : (getCol p "spread_bbb").isSome = true → (getCol p "ff_rate").isSome = true) :
    ∃ q, calculo_transformaciones log p = Except.ok q ∧
      ∃ l, getCol q "log_earnings" = some l ∧
        (∀ (i : Nat) (v : Rat), xs[i]? = some (some v) → v ≤ 0 → l[i]? = some none) ∧
        (∀ i : Nat, xs[i]? = some none → l[i]? = some none) ∧
        (∀ i : Nat, l[i]? = some none → (diff l)[i]? = some none) ∧
        (∀ i : Nat, l[i]? = some none → i + 1 < l.length → (diff l)[i + 1]? = some none) := by
  have hle : getCol (stepDiffs (stepLogs log p)) "log_earnings"
      = some (colLog log (applyPos (replaceZero xs))) := by
    rw [getCol_stepDiffs_ne _ (by decide) (by decide) (by decide) (by decide)]
    exact (stepLogs_earnings_cols log p hx).2
  have hsp4 : getCol (stepDiffs (stepLogs log p)) "spread_bbb" = getCol p "spread_bbb" := by
    rw [getCol_stepDiffs_ne _ (by decide) (by decide) (by decide) (by decide),
      getCol_stepLogs_ne log _ (by decide) (by decide) (by decide) (by decide) (by decide)]
  have hff4 : getCol (stepDiffs (stepLogs log p)) "ff_rate" = getCol p "ff_rate" := by
    rw [getCol_stepDiffs_ne _ (by decide) (by decide) (by decide) (by decide),
      getCol_stepLogs_ne log _ (by decide) (by decide) (by decide) (by decide) (by decide)]
  obtain ⟨q9, hq9⟩ := stepSpread_ok (stepDiffs (stepLogs log p)) (by rw [hsp4, hff4]; exact hff)
  refine ⟨stepSlope q9, ?_, colLog log (applyPos (replaceZero xs)), ?_, ?_, ?_,
    fun i hi => diff_get_none_self hi, fun i hi hl => diff_get_none_next hi hl⟩
  · simp [calculo_transformaciones, hq9, Except.map]
  · rw [getCol_stepSlope_ne _ (by decide) (by decide),
      stepSpread_ok_getCol_ne (by decide) hq9, hle]
  · intro i v hi hv
    have hz : ¬ (0 : Rat) < v := not_lt.mpr hv
    by_cases h0 : v = 0
    · simp [colLog, applyPos, replaceZero, List.getElem?_map, hi, h0]
    · simp [colLog, applyPos, replaceZero, List.getElem?_map, hi, h0, hz]
  · intro i hi
    simp [colLog, applyPos, replaceZero, List.getElem?_map, hi]

theorem c6_witness :
    ∃ q, calculo_transformaciones (fun _ => none)
        ⟨[43200], [("earnings", [some (-1)]), ("spread_bbb", [some 5]), ("ff_rate", [some 1])]⟩
      = Except.ok q ∧
      ∃ l, getCol q "log_earnings" = some l ∧
        (∀ (i : Nat) (v : Rat), ([some (-1)] : List (Option Rat))[i]? = some (some v) → v ≤ 0 → l[i]? = some none) ∧
        (∀ i : Nat, ([some (-1)] : List (Option Rat))[i]? = some none → l[i]? = some none) ∧
        (∀ i : Nat, l[i]? = some none → (diff l)[i]? = some none) ∧
        (∀ i : Nat, l[i]? = some none → i + 1 < l.length → (diff l)[i + 1]? = some none) :=
  c6_log_of_nonpositive_safe (fun _ => none)
    ⟨[43200], [("earnings", [some (-1)]), ("spread_bbb", [some 5]), ("ff_rate", [some 1])]⟩
    [some (-1)] (by decide) (by decide)

/-- Claim C10: whenever the input panel has an earnings column and the
transform returns a panel, the returned panel carries the helper column
earnings_clean (earnings with zero and negative cells turned missing)
alongside log_earnings, so the helper column is part of the output
schema. -/
theorem c10_earnings_clean_column (log : Rat → Option Rat) (p : Panel) (xs : List (Option Rat))
    (q : Panel) (hx : getCol p "earnings" = some xs)
    (hok : calculo_transformaciones log p = Except.ok q) :
    getCol q "earnings_clean" = some (applyPos (replaceZero xs)) ∧
    getCol q "log_earnings" = some (colLog log (applyPos (replaceZero xs))) := by
  unfold calculo_transformaciones at hok
  cases hsp : stepSpread (stepDiffs (stepLogs log p)) with
  | error e => rw [hsp] at hok; cases hok
  | ok q9 =>
    rw [hsp] at hok
    simp only [Except.map] at hok
    cases hok
    constructor
    · rw [getCol_stepSlope_ne _ (by decide) (by decide),
        stepSpread_ok_getCol_ne (by decide) hsp,
        getCol_stepDiffs_ne _ (by decide) (by decide) (by decide) (by decide)]
      exact (stepLogs_earnings_cols log p hx).1
    · rw [getCol_stepSlope_ne _ (by decide) (by decide),
        stepSpread_ok_getCol_ne (by decide) hsp,
        getCol_stepDiffs_ne _ (by decide) (by decide) (by decide) (by decide)]
      exact (stepLogs_earnings_cols log p hx).2

theorem c10_witness :
    getCol ⟨[43200], [("earnings", [some 2]), ("earnings_clean", [some 2]), ("log_earnings", [none])]⟩
        "earnings_clean" = some (applyPos (replaceZero [some 2])) ∧
    getCol ⟨[43200], [("earnings", [some 2]), ("earnings_clean", [some 2]), ("log_earnings", [none])]⟩
        "log_earnings" = some (colLog (fun _ => none) (applyPos (replaceZero [some 2]))) :=
  c10_earnings_clean_column (fun _ => none) ⟨[43200], [("earnings", [some 2])]⟩ [some 2]
    ⟨[43200], [("earnings", [some 2]), ("earnings_clean", [some 2]), ("log_earnings", [none])]⟩
    (by decide)
    (by simp [calculo_transformaciones, stepLogs, stepEarnings, stepDiffs, stepSpread, stepSlope,
      condMap, getCol, getColA, setCol, setColA, colLog, replaceZero, applyPos, Except.map])

theorem tsMonth_monthEndTs (m : Int) : tsMonth (monthEndTs m) = m := by
  unfold tsMonth monthEndTs minutesPerMonth
  rw [Int.fdiv_eq_ediv _ (by norm_num)]
  rw [show (44640 * m + 43200 : Int) = 43200 + 44640 * m by ring]
  rw [Int.add_mul_ediv_left _ _ (by norm_num)]
  norm_num

theorem consec_tz (vs : List Rat) : ∀ m0 : Int, ∀ r ∈ consecRawRows m0 vs, r.1.tz = 0 := by
  induction vs with
  | nil => intro m0 r hr; simp [consecRawRows] at hr
  | cons v t ih =>
    intro m0 r hr
    simp only [consecRawRows, List.mem_cons] at hr
    cases hr with
    | inl h => rw [h]
    | inr h => exact ih (m0 + 1) r h

theorem ffillFrom_consec (vs : List Rat) : ∀ (m0 : Int) (acc : Option Rat),
    ffillFrom acc (consecRawRows m0 vs) = consecRawRows m0 vs := by
  induction vs with
  | nil => intro m0 acc; rfl
  | cons v t ih => intro m0 acc; simp [consecRawRows, ffillFrom, ih]

theorem consec_months_ge (vs : List Rat) : ∀ m0 : Int, ∀ r ∈ consecRawRows m0 vs,
    m0 ≤ tsMonth r.1.wall := by
  induction vs with
  | nil => intro m0 r hr; simp [consecRawRows] at hr
  | cons v t ih =>
    intro m0 r hr
    simp only [consecRawRows, List.mem_cons] at hr
    cases hr with
    | inl h => rw [h]; simp [tsMonth_monthEndTs]
    | inr h => have := ih (m0 + 1) r h; omega

theorem consec_months_minZ (v : Rat) (t : List Rat) : ∀ m0 : Int,
    minZ ((consecRawRows m0 (v :: t)).map (fun r => tsMonth r.1.wall)) = some m0 := by
  induction t generalizing v with
  | nil => intro m0; simp [consecRawRows, minZ, tsMonth_monthEndTs]
  | cons w s ih =>
    intro m0
    have h1 := ih w (m0 + 1)
    simp only [consecRawRows, List.map_cons, minZ, Option.some.injEq] at h1 ⊢
    rw [h1, tsMonth_monthEndTs]
    omega

theorem consec_months_maxZ (v : Rat) (t : List Rat) : ∀ m0 : Int,
    maxZ ((consecRawRows m0 (v :: t)).map (fun r => tsMonth r.1.wall))
      = some (m0 + (t.length : Int)) := by
  induction t generalizing v with
  | nil => intro m0; simp [consecRawRows, maxZ, tsMonth_monthEndTs]
  | cons w s ih =>
    intro m0
    have h1 := ih w (m0 + 1)
    simp only [consecRawRows, List.map_cons, maxZ, Option.some.injEq] at h1 ⊢
    rw [h1, tsMonth_monthEndTs]
    simp only [List.length_cons]
    push_cast
    omega

theorem monthSpan_consec (v : Rat) (t : List Rat) (m0 : Int) :
    monthSpan (consecRawRows m0 (v :: t)) = intRange m0 (m0 + (t.length : Int)) := by
  unfold monthSpan
  rw [consec_months_minZ, consec_months_maxZ]

theorem intRange_cons (lo : Int) (n : Nat) :
    intRange lo (lo + (n : Int)) = lo :: intRange (lo + 1) (lo + (n : Int)) := by
  unfold intRange
  have h1 : (lo + (n : Int) + 1 - lo).toNat = n + 1 := by omega
  have h2 : (lo + (n : Int) + 1 - (lo + 1)).toNat = n := by omega
  rw [h1, h2, List.range_succ_eq_map, List.map_cons, List.map_map]
  congr 1
  · simp
  · apply List.map_congr_left
    intro a _
    simp only [Function.comp_apply, Nat.succ_eq_add_one, Int.ofNat_eq_natCast]
    push_cast
    ring

theorem intRange_mem_ge {lo hi m : Int} (h : m ∈ intRange lo hi) : lo ≤ m := by
  unfold intRange at h
  obtain ⟨i, _, rfl⟩ := List.mem_map.mp h
  simp only [Int.ofNat_eq_natCast]
  omega

theorem bucketVals_cons_ne {x : RawDate × Option Rat} {rest : List (RawDate × Option Rat)}
    {m : Int} (h : ¬ tsMonth x.1.wall = m) :
    bucketVals (x :: rest) m = bucketVals rest m := by
  have hb : (tsMonth x.1.wall == m) = false := by simp [h]
  simp [bucketVals, List.filter_cons, hb]

theorem bucketVals_head (v : Rat) (t : List Rat) (m0 : Int) :
    bucketVals (consecRawRows m0 (v :: t)) m0 = [some v] := by
  have hb : (tsMonth (monthEndTs m0) == m0) = true := by simp [tsMonth_monthEndTs]
  have hrest : (consecRawRows (m0 + 1) t).filter (fun r => tsMonth r.1.wall == m0) = [] := by
    rw [List.filter_eq_nil_iff]
    intro r hr
    have := consec_months_ge t (m0 + 1) r hr
    simp only [beq_iff_eq]
    omega
  simp [consecRawRows, bucketVals, List.filter_cons, hb, hrest]

theorem aggRows_consec (vs : List Rat) : ∀ m0 : Int,
    aggRows (consecRawRows m0 vs) aggLast = consecRawRows m0 vs := by
  induction vs with
  | nil => intro m0; rfl
  | cons v t ih =>
    intro m0
    rw [show aggRows (consecRawRows m0 (v :: t)) aggLast
        = (monthSpan (consecRawRows m0 (v :: t))).map
            (fun m => (⟨monthEndTs m, 0⟩, aggLast (bucketVals (consecRawRows m0 (v :: t)) m)))
      from rfl]
    rw [monthSpan_consec, intRange_cons, List.map_cons, bucketVals_head]
    rw [show consecRawRows m0 (v :: t) = (⟨monthEndTs m0, 0⟩, some v) :: consecRawRows (m0 + 1) t
      from rfl]
    have htail : ∀ m ∈ intRange (m0 + 1) (m0 + (t.length : Int)),
        bucketVals ((⟨monthEndTs m0, 0⟩, some v) :: consecRawRows (m0 + 1) t) m
          = bucketVals (consecRawRows (m0 + 1) t) m := by
      intro m hm
      have hge := intRange_mem_ge hm
      apply bucketVals_cons_ne
      simp only [tsMonth_monthEndTs]
      omega
    have hmap : (intRange (m0 + 1) (m0 + (t.length : Int))).map
          (fun m => ((⟨monthEndTs m, 0⟩ : RawDate),
            aggLast (bucketVals ((⟨monthEndTs m0, 0⟩, some v) :: consecRawRows (m0 + 1) t) m)))
        = (intRange (m0 + 1) (m0 + (t.length : Int))).map
          (fun m => ((⟨monthEndTs m, 0⟩ : RawDate),
            aggLast (bucketVals (consecRawRows (m0 + 1) t) m))) :=
      List.map_congr_left (fun m hm => by rw [htail m hm])
    rw [hmap]
    congr 1
    cases t with
    | nil =>
      norm_num [intRange, consecRawRows]
    | cons w s =>
      have hspan2 : intRange (m0 + 1) (m0 + ((w :: s).length : Int))
          = monthSpan (consecRawRows (m0 + 1) (w :: s)) := by
        rw [monthSpan_consec]
        congr 1
        simp only [List.length_cons]
        push_cast
        ring
      rw [hspan2]
      exact ih (m0 + 1)

/-- Claim C8 (counterexample): a table with month-end dates and one row
per month is not always returned unchanged by resample with method last:
a missing value is forward filled, and a gap month (here February between
January and March) is fabricated as a new row, so the output has three
rows where the input had two and the missing cell became 1. -/
theorem c8_counterexample :
    resample_to_monthly ⟨"x", [(⟨43200, 0⟩, some 1), (⟨132480, 0⟩, none)]⟩ "last"
      = Except.ok ⟨"x", [(⟨43200, 0⟩, some 1), (⟨87840, 0⟩, none), (⟨132480, 0⟩, some 1)]⟩ ∧
    (⟨"x", [(⟨43200, 0⟩, some 1), (⟨87840, 0⟩, none), (⟨132480, 0⟩, some 1)]⟩ : TSFrame)
      ≠ ⟨"x", [(⟨43200, 0⟩, some 1), (⟨132480, 0⟩, none)]⟩ := by
  constructor
  · simp [resample_to_monthly, parsedRows, ffillRows, ffillFrom, aggRows, monthSpan, minZ, maxZ,
      intRange, bucketVals, aggLast, tsMonth, monthEndTs, minutesPerMonth, Int.fdiv,
      List.range, List.range.loop]
  · decide

/-- Claim C8 (amended): resampling with method last is the identity on a
single-series table whose dates are timezone-naive month-end timestamps of
consecutive months, one row per month, with no missing values; a missing
value (forward filled) or a skipped month (fabricated as a new missing
row) breaks the idempotence, as the counterexample shows. -/
theorem c8_resample_idempotent (name : String) (m0 : Int) (vs : List Rat) :
    resample_to_monthly ⟨name, consecRawRows m0 vs⟩ "last"
      = Except.ok ⟨name, consecRawRows m0 vs⟩ := by
  unfold resample_to_monthly
  rw [show ("last" == "last") = true from rfl]
  simp only [if_true]
  rw [parsedRows_id (consec_tz vs m0)]
  rw [show ffillRows (consecRawRows m0 vs) = consecRawRows m0 vs from ffillFrom_consec vs m0 none]
  rw [aggRows_consec vs m0]

theorem firstKnown_spec {ys : List (Option Rat)} : ∀ {k : Nat} {v : Rat},
    ys[k]? = some (some v) → (∀ l : Nat, l < k → ys[l]? = some none) →
    firstKnown ys = some (k, v) := by
  induction ys with
  | nil => intro k v hk _; simp at hk
  | cons o t ih =>
    intro k v hk hlead
    cases k with
    | zero =>
      simp only [List.getElem?_cons_zero, Option.some.injEq] at hk
      subst hk
      rfl
    | succ j =>
      have h0 : o = none := by
        have := hlead 0 (Nat.succ_pos j)
        simpa using this
      subst h0
      simp only [List.getElem?_cons_succ] at hk
      have hlead2 : ∀ l : Nat, l < j → t[l]? = some none := by
        intro l hl
        have := hlead (l + 1) (by omega)
        simpa using this
      simp [firstKnown, ih hk hlead2]

theorem firstKnown_none {ys : List (Option Rat)} (h : ∀ o ∈ ys, o = none) :
    firstKnown ys = none := by
  induction ys with
  | nil => rfl
  | cons o t ih =>
    have h0 : o = none := h o (List.mem_cons_self o t)
    subst h0
    simp [firstKnown, ih (fun x hx => h x (List.mem_cons_of_mem none hx))]

theorem prevKnown_spec {xs : List (Option Rat)} : ∀ {i j : Nat} {vj : Rat},
    j < i → xs[j]? = some (some vj) → (∀ l : Nat, j < l → l < i → xs[l]? = some none) →
    prevKnown xs i = some (j, vj) := by
  intro i
  induction i with
  | zero => intro j vj h; omega
  | succ i ih =>
    intro j vj hj hxj hgap
    by_cases hji : j = i
    · subst hji
      simp [prevKnown, hxj]
    · have hlt : j < i := by omega
      have hxi : xs[i]? = some none := hgap i hlt (Nat.lt_succ_self i)
      simp only [prevKnown, hxi]
      exact ih hlt hxj (fun l h1 h2 => hgap l h1 (by omega))

theorem prevKnown_none {xs : List (Option Rat)} : ∀ {i : Nat},
    (∀ (j : Nat) (v : Rat), j < i → ¬ xs[j]? = some (some v)) → prevKnown xs i = none := by
  intro i
  induction i with
  | zero => intro _; rfl
  | succ i ih =>
    intro h
    have hrec := ih (fun j v hj => h j v (by omega))
    cases hx : xs[i]? with
    | none => simp [prevKnown, hx, hrec]
    | some o =>
      cases o with
      | none => simp [prevKnown, hx, hrec]
      | some v => exact absurd hx (h i v (Nat.lt_succ_self i))

theorem nextKnown_spec {xs : List (Option Rat)} {i k : Nat} {vk : Rat}
    (hik : i < k) (hxk : xs[k]? = some (some vk))
    (hgap : ∀ l : Nat, i < l → l < k → xs[l]? = some none) :
    nextKnown xs i = some (k, vk) := by
  have hk2 : (xs.drop (i + 1))[k - (i + 1)]? = some (some vk) := by
    rw [List.getElem?_drop]
    rw [show i + 1 + (k - (i + 1)) = k by omega]
    exact hxk
  have hlead : ∀ l : Nat, l < k - (i + 1) → (xs.drop (i + 1))[l]? = some none := by
    intro l hl
    rw [List.getElem?_drop]
    exact hgap (i + 1 + l) (by omega) (by omega)
  unfold nextKnown
  rw [firstKnown_spec hk2 hlead]
  have he : i + 1 + (k - (i + 1)) = k := by omega
  simp [he]

theorem nextKnown_none {xs : List (Option Rat)} {i : Nat}
    (h : ∀ l : Nat, i < l → l < xs.length → xs[l]? = some none) :
    nextKnown xs i = none := by
  unfold nextKnown
  rw [firstKnown_none]
  · rfl
  · intro o ho
    obtain ⟨j, hj⟩ := List.mem_iff_getElem?.mp ho
    have hjlen : j < (xs.drop (i + 1)).length := by
      by_contra hc
      rw [List.getElem?_eq_none (by omega)] at hj
      cases hj
    rw [List.getElem?_drop] at hj
    have hlen : i + 1 + j < xs.length := by
      rw [List.length_drop] at hjlen
      omega
    have := h (i + 1 + j) (by omega) hlen
    rw [this] at hj
    cases hj
    rfl

theorem interpolate_linear_get {xs : List (Option Rat)} {i : Nat} (h : i < xs.length) :
    (interpolate_linear xs)[i]? = some (interpAt xs i) := by
  unfold interpolate_linear
  rw [List.getElem?_map, List.getElem?_range]
  · rfl
  · exact h

theorem getElem?_lt_length {xs : List (Option Rat)} {i : Nat} {o : Option Rat}
    (h : xs[i]? = some o) : i < xs.length := by
  by_contra hc
  rw [List.getElem?_eq_none (by omega)] at h
  cases h

/-- Claim C4 (counterexample): a quarterly series known at the first and
third of four panel months does not stay missing after the last known
point: pandas linear interpolation forward fills the trailing month with
the last known value (here 2), so the fourth cell is 2, not missing. -/
theorem c4_counterexample :
    (merge_all_series ⟨some ⟨"sp500", [(43200, some 1), (87840, some 1), (132480, some 1), (177120, some 1)]⟩,
        some ⟨"vix", []⟩, some ⟨"fed_balance", []⟩, some ⟨"ff_rate", []⟩, some ⟨"treasury_2y", []⟩,
        some ⟨"treasury_10y", []⟩, some ⟨"spread_bbb", []⟩,
        some ⟨[43200, 132480], [("gdp", [some 0, some 2])]⟩, none⟩).map
        (fun p => getCol p "gdp_nominal")
      = Except.ok (some [some 0, some 1, some 2, some 2]) ∧
    ([some 0, some 1, some 2, some 2] : List (Option Rat))[3]? ≠ some none := by
  constructor
  · have hg : findGdpCol ["gdp"] = some "gdp" := by with_unfolding_all decide
    simp [merge_all_series, normCheck, joinOpt, leftJoin, matchesAt, dupCell, joinCell,
      gdpStep, hg, renameCol, getCol, getColA, setCol, setColA,
      interpolate_linear, interpAt, prevKnown, nextKnown, firstKnown,
      sortPanel, sortIdx, insertIdx, normME, tsMonth, monthEndTs, minutesPerMonth, Int.fdiv,
      List.range, List.range.loop, Except.map]
  · decide

/-- Claim C4 (amended): the linear interpolation applied to the joined
quarterly column behaves as claimed before and between known points, and
at them: months before the first known point stay missing, known points
keep their exact value, and months strictly between two consecutive known
points receive the position-linear interpolation; but months after the
last known point do not stay missing: they receive the last known value
(the forward fill of the pandas default), the one departure from the
claim. -/
theorem c4_interpolation_behaviour :
    (∀ (xs : List (Option Rat)) (i : Nat), (∀ j : Nat, j ≤ i → xs[j]? = some none) →
      (interpolate_linear xs)[i]? = some none) ∧
    (∀ (xs : List (Option Rat)) (i : Nat) (v : Rat), xs[i]? = some (some v) →
      (interpolate_linear xs)[i]? = some (some v)) ∧
    (∀ (xs : List (Option Rat)) (j i k : Nat) (vj vk : Rat), j < i → i < k →
      xs[j]? = some (some vj) → xs[k]? = some (some vk) →
      (∀ l : Nat, j < l → l < k → xs[l]? = some none) →
      (interpolate_linear xs)[i]? =
        some (some (vj + (vk - vj) * ((i - j : Nat) : Rat) / ((k - j : Nat) : Rat)))) ∧
    (∀ (xs : List (Option Rat)) (j i : Nat) (vj : Rat), j < i → i < xs.length →
      xs[j]? = some (some vj) →
      (∀ l : Nat, j < l → l < xs.length → xs[l]? = some none) →
      (interpolate_linear xs)[i]? = some (some vj)) := by
  refine ⟨?_, ?_, ?_, ?_⟩
  · intro xs i h
    have hxi : xs[i]? = some none := h i (le_refl i)
    rw [interpolate_linear_get (getElem?_lt_length hxi)]
    have hprev : prevKnown xs i = none :=
      prevKnown_none (fun j v hj => by rw [h j (by omega)]; simp)
    simp [interpAt, hxi, hprev]
  · intro xs i v hxi
    rw [interpolate_linear_get (getElem?_lt_length hxi)]
    simp [interpAt, hxi]
  · intro xs j i k vj vk hji hik hxj hxk hgap
    have hxi : xs[i]? = some none := hgap i hji hik
    rw [interpolate_linear_get (getElem?_lt_length hxi)]
    have hprev : prevKnown xs i = some (j, vj) :=
      prevKnown_spec hji hxj (fun l h1 h2 => hgap l h1 (by omega))
    have hnext : nextKnown xs i = some (k, vk) :=
      nextKnown_spec hik hxk (fun l h1 h2 => hgap l (by omega) h2)
    simp [interpAt, hxi, hprev, hnext]
  · intro xs j i vj hji hlen hxj hgap
    have hxi : xs[i]? = some none := hgap i hji hlen
    rw [interpolate_linear_get hlen]
    have hprev : prevKnown xs i = some (j, vj) :=
      prevKnown_spec hji hxj (fun l h1 h2 => hgap l h1 (by omega))
    have hnext : nextKnown xs i = none :=
      nextKnown_none (fun l h1 h2 => hgap l (by omega) h2)
    simp [interpAt, hxi, hprev, hnext]

theorem c4_witness :
    (interpolate_linear [none, some 5])[0]? = some none ∧
    (interpolate_linear [some 1, none, some 3, none])[0]? = some (some 1) ∧
    (interpolate_linear [some 1, none, some 3, none])[1]? =
      some (some (1 + (3 - 1) * ((1 - 0 : Nat) : Rat) / ((2 - 0 : Nat) : Rat))) ∧
    (interpolate_linear [some 1, none, some 3, none])[3]? = some (some 3) :=
  ⟨c4_interpolation_behaviour.1 [none, some 5] 0 (by decide),
   c4_interpolation_behaviour.2.1 [some 1, none, some 3, none] 0 1 (by decide),
   c4_interpolation_behaviour.2.2.1 [some 1, none, some 3, none] 0 1 2 1 3
     (by decide) (by decide) (by decide) (by decide)
     (by
       intro l h1 h2
       have h3 : l = 1 := by omega
       subst h3
       rfl),
   c4_interpolation_behaviour.2.2.2 [some 1, none, some 3, none] 2 3 3
     (by decide) (by decide) (by decide)
     (by
       intro l h1 h2
       have h4 : l < 4 := by simpa using h2
       have h3 : l = 3 := by omega
       subst h3
       rfl)⟩

/-- Claim C3: the claim says delta_spread is the first difference of
spread_bbb; on a panel where spread_bbb moves by 2 and ff_rate moves by
10 the source assigns the difference of ff_rate, producing 10 instead of
2, because line 439 diffs the wrong column: a code bug the spec itself
flags as a copy-paste mistake. -/
theorem c3_delta_spread_wrong_source :
    calculo_transformaciones (fun _ => none)
        ⟨[43200, 87840], [("spread_bbb", [some 1, some 3]), ("ff_rate", [some 0, some 10])]⟩
      = Except.ok ⟨[43200, 87840], [("spread_bbb", [some 1, some 3]), ("ff_rate", [some 0, some 10]),
          ("delta_ff", [none, some 10]), ("delta_spread", [none, some 10])]⟩ ∧
    diff [some 1, some 3] = [none, some 2] ∧
    ([none, some 10] : List (Option Rat)) ≠ [none, some 2] := by
  refine ⟨?_, ?_, ?_⟩
  · simp [calculo_transformaciones, stepLogs, stepEarnings, stepDiffs, stepSpread, stepSlope,
      condMap, getCol, getColA, setCol, setColA, colLog, replaceZero, applyPos, diff, diffFrom,
      zipSub, Except.map]
  · simp [diff, diffFrom]
    norm_num
  · simp

theorem filter_eq_find_of_nodup {rows : List (Int × Option Rat)}
    (hn : (rows.map (fun r => r.1)).Nodup) (d : Int) :
    rows.filter (fun r => r.1 == d) = (rows.find? (fun r => r.1 == d)).toList := by
  induction rows with
  | nil => rfl
  | cons r t ih =>
    rw [List.map_cons, List.nodup_cons] at hn
    by_cases hr : r.1 = d
    · have hnil : t.filter (fun x => x.1 == d) = [] := by
        rw [List.filter_eq_nil_iff]
        intro x hx
        have hxm : x.1 ∈ t.map (fun r => r.1) := List.mem_map_of_mem _ hx
        simp only [beq_iff_eq]
        intro he
        exact hn.1 (by rw [hr, ← he]; exact hxm)
      simp [List.filter_cons, List.find?_cons, hr, hnil]
    · simp [List.filter_cons, List.find?_cons, hr, ih hn.2]

theorem dupCell_single {rows : List (Int × Option Rat)}
    (hn : (rows.map (fun r => r.1)).Nodup) (d : Int) {a : Type} (v : a) :
    dupCell (matchesAt rows d) v = [v] := by
  unfold matchesAt
  rw [filter_eq_find_of_nodup hn]
  cases rows.find? (fun r => r.1 == d) <;> rfl

theorem joinCell_single {rows : List (Int × Option Rat)}
    (hn : (rows.map (fun r => r.1)).Nodup) (d : Int) :
    joinCell (matchesAt rows d) = [lookupR rows d] := by
  unfold matchesAt lookupR
  rw [filter_eq_find_of_nodup hn]
  cases rows.find? (fun r => r.1 == d) <;> rfl

theorem flatMap_dup {rows : List (Int × Option Rat)}
    (hn : (rows.map (fun r => r.1)).Nodup) (ds : List Int) :
    (ds.zip (ds.map (fun d => matchesAt rows d))).flatMap (fun pr => dupCell pr.2 pr.1) = ds := by
  induction ds with
  | nil => rfl
  | cons d t ih =>
    simp only [List.map_cons, List.zip_cons_cons, List.flatMap_cons]
    rw [dupCell_single hn, ih]
    rfl

theorem flatMap_dup_col {rows : List (Int × Option Rat)}
    (hn : (rows.map (fun r => r.1)).Nodup) :
    ∀ (ds : List Int) (c : List (Option Rat)), c.length = ds.length →
    (c.zip (ds.map (fun d => matchesAt rows d))).flatMap (fun pr => dupCell pr.2 pr.1) = c := by
  intro ds
  induction ds with
  | nil =>
    intro c hc
    rw [List.length_nil, List.length_eq_zero] at hc
    subst hc
    rfl
  | cons d t ih =>
    intro c hc
    cases c with
    | nil => simp at hc
    | cons v cs =>
      simp only [List.length_cons] at hc
      simp only [List.map_cons, List.zip_cons_cons, List.flatMap_cons]
      rw [dupCell_single hn, ih cs (by omega)]
      rfl

theorem flatMap_join {rows : List (Int × Option Rat)}
    (hn : (rows.map (fun r => r.1)).Nodup) (ds : List Int) :
    (ds.map (fun d => matchesAt rows d)).flatMap joinCell = ds.map (lookupR rows) := by
  induction ds with
  | nil => rfl
  | cons d t ih =>
    simp only [List.map_cons, List.flatMap_cons]
    rw [joinCell_single hn, ih]
    rfl

theorem leftJoin_nodup {p : Panel} {f : SFrame}
    (hw : ∀ c ∈ p.cols, c.2.length = p.dates.length)
    (hn : (f.rows.map (fun r => r.1)).Nodup) :
    leftJoin p f = ⟨p.dates, p.cols ++ [(f.name, p.dates.map (lookupR f.rows))]⟩ := by
  show (⟨(p.dates.zip (p.dates.map (fun d => matchesAt f.rows d))).flatMap
      (fun pr => dupCell pr.2 pr.1),
    p.cols.map (fun c =>
        (c.1, (c.2.zip (p.dates.map (fun d => matchesAt f.rows d))).flatMap
          (fun pr => dupCell pr.2 pr.1)))
      ++ [(f.name, (p.dates.map (fun d => matchesAt f.rows d)).flatMap joinCell)]⟩ : Panel)
    = ⟨p.dates, p.cols ++ [(f.name, p.dates.map (lookupR f.rows))]⟩
  congr 1
  · exact flatMap_dup hn p.dates
  · congr 1
    · rw [List.map_congr_left (fun c hc => ?_)]
      · exact List.map_id p.cols
      · show (c.1, (c.2.zip (p.dates.map (fun d => matchesAt f.rows d))).flatMap
            (fun pr => dupCell pr.2 pr.1)) = id c
        rw [flatMap_dup_col hn p.dates c.2 (hw c hc)]
        rfl
    · rw [flatMap_join hn]

theorem lookupR_not_mem {rows : List (Int × Option Rat)} {d : Int}
    (h : d ∉ rows.map (fun r => r.1)) : lookupR rows d = none := by
  unfold lookupR
  cases hf : rows.find? (fun r => r.1 == d) with
  | none => rfl
  | some r =>
    have h1 := List.find?_some hf
    have h2 : r ∈ rows := List.mem_of_find?_eq_some hf
    simp only [beq_iff_eq] at h1
    exact absurd (h1 ▸ List.mem_map_of_mem (fun r => r.1) h2) h

theorem insertIdx_append (keyOf : Nat → Int) (i : Nat) (l : List Nat)
    (h : ∀ j ∈ l, ¬ keyOf i < keyOf j) : insertIdx keyOf i l = l ++ [i] := by
  induction l with
  | nil => rfl
  | cons j t ih =>
    have hj : ¬ keyOf i < keyOf j := h j (List.mem_cons_self j t)
    simp only [insertIdx, hj, if_false]
    rw [ih (fun x hx => h x (List.mem_cons_of_mem j hx))]
    rfl

theorem sortIdx_range (keyOf : Nat → Int) (n : Nat)
    (hmono : ∀ a b : Nat, a ≤ b → b < n → keyOf a ≤ keyOf b) :
    sortIdx keyOf (List.range n) = List.range n := by
  induction n with
  | zero => rfl
  | succ n ih =>
    unfold sortIdx
    rw [List.range_succ, List.foldl_append]
    simp only [List.foldl_cons, List.foldl_nil]
    have hpre := ih (fun a b hab hb => hmono a b hab (by omega))
    unfold sortIdx at hpre
    rw [hpre, insertIdx_append keyOf n (List.range n)
      (fun j hj => not_lt.mpr (hmono j n (le_of_lt (List.mem_range.mp hj)) (Nat.lt_succ_self n)))]

theorem map_get_range {a : Type} (l : List a) (d : a) :
    (List.range l.length).map (fun i => l[i]?.getD d) = l := by
  induction l with
  | nil => rfl
  | cons x t ih =>
    rw [List.length_cons, List.range_succ_eq_map, List.map_cons, List.map_map]
    congr 1
    · simp
    · have hfun : ∀ i ∈ List.range t.length,
          ((fun i => (x :: t)[i]?.getD d) ∘ Nat.succ) i = (fun i => t[i]?.getD d) i := by
        intro i _
        simp
      rw [List.map_congr_left hfun]
      exact ih

theorem sortPanel_sorted {p : Panel}
    (hmono : ∀ a b : Nat, a ≤ b → b < p.dates.length →
      (p.dates[a]?.getD 0) ≤ (p.dates[b]?.getD 0))
    (hw : ∀ c ∈ p.cols, c.2.length = p.dates.length) :
    sortPanel p = p := by
  have hperm : sortIdx (fun i => p.dates[i]?.getD 0) (List.range p.dates.length)
      = List.range p.dates.length := sortIdx_range _ _ hmono
  show (⟨(sortIdx (fun i => p.dates[i]?.getD 0) (List.range p.dates.length)).map
      (fun i => p.dates[i]?.getD 0),
    p.cols.map (fun c =>
      (c.1, (sortIdx (fun i => p.dates[i]?.getD 0) (List.range p.dates.length)).map
        (fun i => c.2[i]?.getD none)))⟩ : Panel) = p
  rw [hperm]
  have hcols : ∀ c ∈ p.cols,
      (c.1, (List.range p.dates.length).map (fun i => c.2[i]?.getD none)) = (fun c => c) c := by
    intro c hc
    have hlen : c.2.length = p.dates.length := hw c hc
    rw [← hlen, map_get_range]
  rw [List.map_congr_left hcols]
  cases p with
  | mk ds cols =>
    congr 1
    · exact map_get_range ds 0
    · simp

theorem leftJoin_chain (fs : List SFrame) : ∀ (p : Panel),
    (∀ c ∈ p.cols, c.2.length = p.dates.length) →
    (∀ f ∈ fs, (f.rows.map (fun r => r.1)).Nodup) →
    fs.foldl leftJoin p
      = ⟨p.dates, p.cols ++ fs.map (fun f => (f.name, p.dates.map (lookupR f.rows)))⟩ := by
  induction fs with
  | nil =>
    intro p _ _
    cases p with
    | mk ds cols => simp
  | cons f t ih =>
    intro p hw hn
    rw [List.foldl_cons, leftJoin_nodup hw (hn f (List.mem_cons_self f t))]
    rw [ih ⟨p.dates, p.cols ++ [(f.name, p.dates.map (lookupR f.rows))]⟩ ?hw2
      (fun g hg => hn g (List.mem_cons_of_mem f hg))]
    · simp
    case hw2 =>
      intro c hc
      rw [List.mem_append] at hc
      cases hc with
      | inl h => exact hw c h
      | inr h =>
        rw [List.mem_singleton] at h
        subst h
        simp

theorem consecS_length (vs : List (Option Rat)) : ∀ m0 : Int,
    (consecSRows m0 vs).length = vs.length := by
  induction vs with
  | nil => intro m0; rfl
  | cons v t ih => intro m0; simp [consecSRows, ih]

theorem normME_monthEnd (m : Int) : normME (monthEndTs m) = monthEndTs m := by
  unfold normME
  rw [tsMonth_monthEndTs]

theorem consecS_norm (vs : List (Option Rat)) : ∀ m0 : Int,
    (consecSRows m0 vs).map (fun r => normME r.1) = (consecSRows m0 vs).map (fun r => r.1) := by
  induction vs with
  | nil => intro m0; rfl
  | cons v t ih => intro m0; simp [consecSRows, normME_monthEnd, ih]

theorem consecS_dates_get (vs : List (Option Rat)) : ∀ (m0 : Int) (i : Nat), i < vs.length →
    ((consecSRows m0 vs).map (fun r => r.1))[i]? = some (monthEndTs (m0 + (i : Int))) := by
  induction vs with
  | nil => intro m0 i hi; simp at hi
  | cons v t ih =>
    intro m0 i hi
    cases i with
    | zero => simp [consecSRows]
    | succ j =>
      simp only [consecSRows, List.map_cons, List.getElem?_cons_succ]
      rw [ih (m0 + 1) j (by simpa using hi)]
      congr 2
      push_cast
      ring

theorem consecS_dates_mono (vs : List (Option Rat)) (m0 : Int) :
    ∀ a b : Nat, a ≤ b → b < ((consecSRows m0 vs).map (fun r => r.1)).length →
    (((consecSRows m0 vs).map (fun r => r.1))[a]?.getD 0)
      ≤ (((consecSRows m0 vs).map (fun r => r.1))[b]?.getD 0) := by
  intro a b hab hb
  have hlen : ((consecSRows m0 vs).map (fun r => r.1)).length = vs.length := by
    rw [List.length_map, consecS_length]
  rw [hlen] at hb
  rw [consecS_dates_get vs m0 a (by omega), consecS_dates_get vs m0 b hb]
  simp only [Option.getD_some]
  unfold monthEndTs minutesPerMonth
  have hc : (a : Int) ≤ (b : Int) := by exact_mod_cast hab
  nlinarith

/-- Claim C7: merging a base series of N consecutive month-end rows with
present optional monthly series, each with at most one row per month (the
deficient one covering N−2 of the base months), yields a panel whose date
column is exactly the base series months, hence exactly N rows with no
base month dropped or replaced; each optional column holds, at every base
month, the value looked up in that series, and in particular a missing
cell (not a dropped row) at every base month the series does not cover. -/
theorem c7_left_join_row_preservation
    (m0 : Int) (bvals : List (Option Rat))
    (r1 r2 r3 r4 r5 r6 : List (Int × Option Rat))
    (h1 : (r1.map (fun r => r.1)).Nodup) (h2 : (r2.map (fun r => r.1)).Nodup)
    (h3 : (r3.map (fun r => r.1)).Nodup) (h4 : (r4.map (fun r => r.1)).Nodup)
    (h5 : (r5.map (fun r => r.1)).Nodup) (h6 : (r6.map (fun r => r.1)).Nodup)
    (_hcov : (r1.map (fun r => r.1)).length + 2 = bvals.length)
    (_hsub : ∀ d ∈ r1.map (fun r => r.1), d ∈ (consecSRows m0 bvals).map (fun r => r.1)) :
    ∃ p, merge_all_series ⟨some ⟨"sp500", consecSRows m0 bvals⟩, some ⟨"vix", r1⟩,
        some ⟨"fed_balance", r2⟩, some ⟨"ff_rate", r3⟩, some ⟨"treasury_2y", r4⟩,
        some ⟨"treasury_10y", r5⟩, some ⟨"spread_bbb", r6⟩, none, none⟩ = Except.ok p ∧
      p.dates = (consecSRows m0 bvals).map (fun r => r.1) ∧
      p.dates.length = bvals.length ∧
      getCol p "vix" = some (p.dates.map (lookupR r1)) ∧
      getCol p "fed_balance" = some (p.dates.map (lookupR r2)) ∧
      getCol p "ff_rate" = some (p.dates.map (lookupR r3)) ∧
      getCol p "treasury_2y" = some (p.dates.map (lookupR r4)) ∧
      getCol p "treasury_10y" = some (p.dates.map (lookupR r5)) ∧
      getCol p "spread_bbb" = some (p.dates.map (lookupR r6)) ∧
      (∀ (rows : List (Int × Option Rat)) (d : Int),
        d ∉ rows.map (fun r => r.1) → lookupR rows d = none) := by
  have hm0 : merge_all_series ⟨some ⟨"sp500", consecSRows m0 bvals⟩, some ⟨"vix", r1⟩,
        some ⟨"fed_balance", r2⟩, some ⟨"ff_rate", r3⟩, some ⟨"treasury_2y", r4⟩,
        some ⟨"treasury_10y", r5⟩, some ⟨"spread_bbb", r6⟩, none, none⟩
      = Except.ok (sortPanel
          (([⟨"vix", r1⟩, ⟨"fed_balance", r2⟩, ⟨"ff_rate", r3⟩, ⟨"treasury_2y", r4⟩,
            ⟨"treasury_10y", r5⟩, ⟨"spread_bbb", r6⟩] : List SFrame).foldl leftJoin
            ⟨(consecSRows m0 bvals).map (fun r => normME r.1),
              [("sp500", (consecSRows m0 bvals).map (fun r => r.2))]⟩)) := rfl
  rw [consecS_norm] at hm0
  rw [leftJoin_chain _ _ ?hwb ?hns] at hm0
  case hwb =>
    intro c hc
    rw [List.mem_singleton] at hc
    subst hc
    simp [consecS_length]
  case hns =>
    intro f hf
    simp only [List.mem_cons, List.not_mem_nil, or_false] at hf
    rcases hf with rfl | rfl | rfl | rfl | rfl | rfl
    · exact h1
    · exact h2
    · exact h3
    · exact h4
    · exact h5
    · exact h6
  simp only [List.map_cons, List.map_nil, List.singleton_append, List.cons_append,
    List.nil_append] at hm0
  rw [sortPanel_sorted ?hmono ?hwp] at hm0
  case hmono => exact consecS_dates_mono bvals m0
  case hwp =>
    intro c hc
    simp only [List.mem_cons, List.not_mem_nil, or_false] at hc
    rcases hc with rfl | rfl | rfl | rfl | rfl | rfl | rfl
    · simp [consecS_length]
    · simp
    · simp
    · simp
    · simp
    · simp
    · simp
  refine ⟨_, hm0, rfl, ?_, ?_, ?_, ?_, ?_, ?_, ?_,
    fun rows d hd => lookupR_not_mem hd⟩
  · simp [consecS_length]
  · simp [getCol, getColA]
  · simp [getCol, getColA]
  · simp [getCol, getColA]
  · simp [getCol, getColA]
  · simp [getCol, getColA]
  · simp [getCol, getColA]

theorem c7_witness :
    ∃ p, merge_all_series ⟨some ⟨"sp500", consecSRows 0 [some 1, some 1, some 1]⟩,
        some ⟨"vix", [(43200, some 7)]⟩, some ⟨"fed_balance", []⟩, some ⟨"ff_rate", []⟩,
        some ⟨"treasury_2y", []⟩, some ⟨"treasury_10y", []⟩, some ⟨"spread_bbb", []⟩,
        none, none⟩ = Except.ok p ∧
      p.dates = (consecSRows 0 [some 1, some 1, some 1]).map (fun r => r.1) ∧
      p.dates.length = ([some 1, some 1, some 1] : List (Option Rat)).length ∧
      getCol p "vix" = some (p.dates.map (lookupR [(43200, some 7)])) ∧
      getCol p "fed_balance" = some (p.dates.map (lookupR [])) ∧
      getCol p "ff_rate" = some (p.dates.map (lookupR [])) ∧
      getCol p "treasury_2y" = some (p.dates.map (lookupR [])) ∧
      getCol p "treasury_10y" = some (p.dates.map (lookupR [])) ∧
      getCol p "spread_bbb" = some (p.dates.map (lookupR [])) ∧
      (∀ (rows : List (Int × Option Rat)) (d : Int),
        d ∉ rows.map (fun r => r.1) → lookupR rows d = none) :=
  c7_left_join_row_preservation 0 [some 1, some 1, some 1] [(43200, some 7)] [] [] [] [] []
    (by decide) (by decide) (by decide) (by decide) (by decide) (by decide) (by decide)
    (by decide)
